import Mathlib

/-!
Verification development for the autopkg-runner repository.

The repository publishes a software package and synchronizes a GitOps
repository.  Two implementations exist side by side:

* `fleet-gitops-uploader/fleetGitOpsUploader.py` (embedded below in the
  `Uploader` namespace), and
* `scripts/update_gitops.py` (embedded below in the `Scripts` namespace).

YAML documents are modelled by the inductive type `YVal`; Python `dict`s
are modelled as association lists in insertion order, with `pyGet`,
`pySet` and `pySetdefault` mirroring `d[k]`, `d[k] = v` and
`d.setdefault(k, v)`.
-/

/-- A YAML value: null, string, bool, integer, sequence or mapping.
Mappings are association lists kept in insertion order, exactly as a
Python `dict` preserves insertion order. -/
inductive YVal where
  | null
  | s (v : String)
  | b (v : Bool)
  | i (v : Int)
  | list (vs : List YVal)
  | map (kvs : List (String × YVal))

/-- Python truthiness on YAML values (`bool(x)`): `None`, `""`, `False`,
`0`, `[]` and the empty mapping are falsy. -/
def pyFalsy : YVal → Bool
  | .null => true
  | .s v => v = ""
  | .b v => !v
  | .i v => v = 0
  | .list vs => vs.isEmpty
  | .map kvs => kvs.isEmpty

/-- `d.get(k)` / `k in d` lookup on an insertion-ordered dict. -/
def pyGet (d : List (String × YVal)) (k : String) : Option YVal :=
  (d.find? (fun kv => kv.1 = k)).map (fun kv => kv.2)

/-- `d[k] = v`: replace the value of an existing key in place (keeping
its position), otherwise append the new key at the end. -/
def pySet (d : List (String × YVal)) (k : String) (v : YVal) : List (String × YVal) :=
  match d with
  | [] => [(k, v)]
  | (k0, v0) :: rest => if k0 = k then (k0, v) :: rest else (k0, v0) :: pySet rest k v

/-- `d.setdefault(k, v)`: insert `k ↦ v` at the end only when `k` is
absent; an existing binding is kept untouched. -/
def pySetdefault (d : List (String × YVal)) (k : String) (v : YVal) : List (String × YVal) :=
  if (pyGet d k).isSome then d else d ++ [(k, v)]

/-- Whether a mapping (as association list) carries the key `k`. -/
def hasKey (k : String) (d : List (String × YVal)) : Bool :=
  d.any (fun kv => kv.1 = k)

/-- The field `k` of the `spec` mapping of a package document, when the
document carries a `spec` mapping. -/
def spec_field (d : List (String × YVal)) (k : String) : Option YVal :=
  match pyGet d "spec" with
  | some (YVal.map m) => pyGet m k
  | _ => none

/-- ASCII lowercasing of one character, as Python `str.lower` acts on
the ASCII range (the inputs of interest here). -/
def pyLower (c : Char) : Char :=
  if 'A' ≤ c ∧ c ≤ 'Z' then Char.ofNat (c.toNat + 32) else c

/-- Membership in the character class `[a-z0-9]` of the slug regexes. -/
def isLowerAlnum (c : Char) : Bool :=
  ('a' ≤ c ∧ c ≤ 'z') ∨ ('0' ≤ c ∧ c ≤ '9')

/-- Worker for `squash`.  The flag records whether the previous
character was part of a run outside `[a-z0-9]` whose dash has already
been emitted. -/
def squashAux : Bool → List Char → List Char
  | _, [] => []
  | inRun, c :: rest =>
    if isLowerAlnum c then c :: squashAux false rest
    else if inRun then squashAux true rest
    else '-' :: squashAux true rest

/-- `re.sub` with pattern `[^a-z0-9]+` and replacement `-`: each
maximal run of characters outside `[a-z0-9]` becomes one dash. -/
def squash (l : List Char) : List Char :=
  squashAux false l

/-- Worker for `collapseDashes`; the flag records an already-emitted
dash run. -/
def collapseAux : Bool → List Char → List Char
  | _, [] => []
  | inRun, c :: rest =>
    if c = '-' then
      if inRun then collapseAux true rest else '-' :: collapseAux true rest
    else c :: collapseAux false rest

/-- `re.sub` with pattern `-+` and replacement `-`: collapse each run
of dashes to a single dash. -/
def collapseDashes (l : List Char) : List Char :=
  collapseAux false l

/-- Python `str.strip("-")`: drop leading and trailing dashes. -/
def stripDash (l : List Char) : List Char :=
  ((l.dropWhile (fun c => c = '-')).reverse.dropWhile (fun c => c = '-')).reverse

/-- The slug normalization exactly as the specification words it:
lowercase, replace each maximal run outside `[a-z0-9]` by one dash,
strip leading and trailing dashes, and fall back to the fixed token
`software` when the result is empty.  Stated from the spec's words so
the two implementations can be compared against it. -/
def claimSlugify (x : List Char) : List Char :=
  let r := stripDash (squash (x.map pyLower))
  if r = [] then "software".data else r

namespace Uploader

/-- `FleetGitOpsUploader._slugify`: lowercase, squash runs outside
`[a-z0-9]` to a dash, collapse dash runs, strip dashes, and fall back
to the token `software` when the result is empty. -/
def _slugify (text : List Char) : List Char :=
  let s1 := text.map pyLower
  let s2 := squash s1
  let s3 := stripDash (collapseDashes s2)
  if s3 = [] then "software".data else s3

/-- A `software.packages` entry of the team YAML, as
`FleetGitOpsUploader._ensure_team_yaml_has_package` can encounter it: a
bare string, a mapping (with or without a `path` key), or any other
YAML shape. -/
inductive PkgRef where
  | str (s : String)
  | dict (path : Option String)
  | other
deriving DecidableEq

/-- The inner `pkg_ref` normalizer of
`FleetGitOpsUploader._ensure_team_yaml_has_package`: a bare string is
used as is, a mapping contributes its `path` value, anything else the
empty string. -/
def pkg_ref : PkgRef → String
  | .str s => s
  | .dict (some p) => p
  | .dict none => ""
  | .other => ""

/-- Core of `FleetGitOpsUploader._ensure_team_yaml_has_package` on the
`software.packages` sequence: when `ref_path` is not among the
normalized existing entries, append a mapping entry with that path and
report a change; otherwise leave the sequence alone and report none. -/
def ensure_team_packages (pkgs : List PkgRef) (ref_path : String) :
    List PkgRef × Bool :=
  let existing := pkgs.map pkg_ref
  if ref_path ∈ existing then (pkgs, false)
  else (pkgs ++ [.dict (some ref_path)], true)

/-- `FleetGitOpsUploader._ensure_team_yaml_has_package` at document
level: an absent or null `software` key becomes an empty mapping, an
absent or null `packages` key becomes an empty sequence, and the core
operation runs on that sequence. -/
def _ensure_team_yaml_has_package (doc : Option (Option (List PkgRef)))
    (ref_path : String) : List PkgRef × Bool :=
  let pkgs := match doc with
    | none => []
    | some none => []
    | some (some l) => l
  ensure_team_packages pkgs ref_path

/-- `FleetGitOpsUploader._read_yaml`: a missing file (`none`) gives an
empty mapping, and a parse result that is falsy (in particular the
`None` produced by an empty file, via `yaml.safe_load(f) or` the empty
dict) also gives an empty mapping. -/
def _read_yaml : Option YVal → YVal
  | none => .map []
  | some v => if pyFalsy v then .map [] else v

/-- Guard at the top of `FleetGitOpsUploader._fleet_upload_package`:
`if labels_include_any and labels_exclude_any: raise ProcessorError`. -/
def _fleet_upload_label_guard (labels_include_any labels_exclude_any : List String) :
    Except String Unit :=
  if labels_include_any ≠ [] ∧ labels_exclude_any ≠ [] then
    .error "Only one of labels_include_any or labels_exclude_any may be specified."
  else
    .ok ()

/-- The `pkg_block` composed by
`FleetGitOpsUploader._write_or_update_package_yaml`, key by key in the
source order.  Optional fields are added only when truthy, and
`automatic_install` additionally requires platform darwin/macos. -/
def pkg_block (software_title version platform : String) (hash_sha256 : Option String)
    (self_service : Bool) (labels_include_any labels_exclude_any : List String)
    (automatic_install : Bool)
    (pre_install_query install_script uninstall_script post_install_script : String) :
    List (String × YVal) :=
  [("name", .s software_title), ("version", .s version), ("platform", .s platform)]
  ++ (match hash_sha256 with
      | some h => if h = "" then [] else [("hash_sha256", YVal.s h)]
      | none => [])
  ++ (if self_service then [("self_service", YVal.b true)] else [])
  ++ (if labels_include_any ≠ [] then
        [("labels_include_any", YVal.list (labels_include_any.map YVal.s))] else [])
  ++ (if labels_exclude_any ≠ [] then
        [("labels_exclude_any", YVal.list (labels_exclude_any.map YVal.s))] else [])
  ++ (if automatic_install ∧ (platform = "darwin" ∨ platform = "macos") then
        [("automatic_install", YVal.b true)] else [])
  ++ (if pre_install_query ≠ "" then
        [("pre_install_query", YVal.map [("query", YVal.s pre_install_query)])] else [])
  ++ (if install_script ≠ "" then
        [("install_script", YVal.map [("contents", YVal.s install_script)])] else [])
  ++ (if uninstall_script ≠ "" then
        [("uninstall_script", YVal.map [("contents", YVal.s uninstall_script)])] else [])
  ++ (if post_install_script ≠ "" then
        [("post_install_script", YVal.map [("contents", YVal.s post_install_script)])] else [])

/-- `FleetGitOpsUploader._write_or_update_package_yaml`: the prior file
content is read (`prior`) and then discarded — the document written is
a mapping with the single key `package` holding `pkg_block`, built
entirely from the supplied fields. -/
def _write_or_update_package_yaml (prior : YVal)
    (software_title version platform : String) (hash_sha256 : Option String)
    (self_service : Bool) (labels_include_any labels_exclude_any : List String)
    (automatic_install : Bool)
    (pre_install_query install_script uninstall_script post_install_script : String) : YVal :=
  let _ := prior
  .map [("package", .map (pkg_block software_title version platform hash_sha256
    self_service labels_include_any labels_exclude_any automatic_install
    pre_install_query install_script uninstall_script post_install_script))]

end Uploader

namespace Scripts

/-- `update_gitops.load_yaml`: a missing file gives an empty mapping,
and a falsy parse (the `None` of an empty file, via `yaml.load(fh) or`
the empty dict) gives an empty mapping. -/
def load_yaml : Option YVal → YVal
  | none => .map []
  | some v => if pyFalsy v then .map [] else v

/-- `update_gitops.slugify`: lowercase, squash runs outside `[a-z0-9]`
to a dash, strip dashes.  No fallback token: an all-symbol input yields
the empty string. -/
def slugify (name : List Char) : List Char :=
  stripDash (squash (name.map pyLower))

/-- `update_gitops.ensure_pkgfile` on the parsed prior document.  An
empty (falsy) document is replaced by the fresh apiVersion/kind/spec
skeleton; otherwise `spec` is fetched with `setdefault`, `name` and
`platform` are set only when absent, and `hash_sha256` is always
assigned.  A present non-mapping `spec` value would raise in Python and
is returned as `none`. -/
def ensure_pkgfile (prior : List (String × YVal)) (name hash_value : String) :
    Option (List (String × YVal)) :=
  if prior.isEmpty then
    some [("apiVersion", .s "v1"), ("kind", .s "software"),
          ("spec", .map [("name", .s name), ("platform", .s "darwin"),
                         ("hash_sha256", .s hash_value)])]
  else
    match pyGet prior "spec" with
    | some (YVal.map spec0) =>
      let s1 := pySetdefault spec0 "name" (.s name)
      let s2 := pySetdefault s1 "platform" (.s "darwin")
      let s3 := pySet s2 "hash_sha256" (.s hash_value)
      some (pySet prior "spec" (.map s3))
    | none =>
      let s1 := pySetdefault [] "name" (.s name)
      let s2 := pySetdefault s1 "platform" (.s "darwin")
      let s3 := pySet s2 "hash_sha256" (.s hash_value)
      some (pySet prior "spec" (.map s3))
    | some _ => none

/-- A `software.packages` entry as `update_gitops.ensure_team` can meet
it: a mapping with optional `package_path` and `self_service` keys, or
a non-mapping value (e.g. a bare string), on which Python's
`entry.get` raises `AttributeError`. -/
inductive TeamEntry where
  | map (package_path : Option String) (self_service : Option Bool)
  | str (s : String)
deriving DecidableEq

/-- The `package_path` a `TeamEntry` contributes to the matching loop
(`entry.get` returns `None` on a mapping without the key; a non-mapping
entry has no such field). -/
def entryPath : TeamEntry → Option String
  | .map pp _ => pp
  | .str _ => none

/-- Whether an entry is a mapping (the only shape whose `entry.get`
call succeeds in Python). -/
def isMapEntry : TeamEntry → Bool
  | .map _ _ => true
  | .str _ => false

/-- The `for entry in packages ... else: append` loop of
`update_gitops.ensure_team`: the first mapping entry whose
`package_path` equals `target` gets its `self_service` refreshed and
the loop breaks; if no entry matches, a new mapping entry is appended.
Reaching a non-mapping entry raises (`none`). -/
def ensureTeamLoop (target : String) (self_service : Bool) :
    List TeamEntry → Option (List TeamEntry)
  | [] => some [.map (some target) (some self_service)]
  | .map pp s0 :: rest =>
    if pp = some target then some (.map pp (some self_service) :: rest)
    else (ensureTeamLoop target self_service rest).map (fun l => .map pp s0 :: l)
  | .str _ :: _ => none

/-- `update_gitops.ensure_team` on the `software.packages` sequence:
the target path is built from the slug and the loop above runs. -/
def ensure_team (packages : List TeamEntry) (slug : String) (self_service : Bool) :
    Option (List TeamEntry) :=
  ensureTeamLoop ("../lib/software/" ++ slug ++ ".package.yml") self_service packages

end Scripts

/-- A file-system state: the set of existing directories (as segment
lists) and the files with their parsed content.  The root `[]` is a
directory like any other. -/
structure FS where
  dirs : List (List String)
  files : List (List String × YVal)

/-- Store a file under a path: overwrite an existing entry in place,
otherwise append. -/
def upsertFile (files : List (List String × YVal)) (p : List String) (d : YVal) :
    List (List String × YVal) :=
  match files with
  | [] => [(p, d)]
  | (p0, d0) :: rest =>
    if p0 = p then (p0, d) :: rest else (p0, d0) :: upsertFile rest p d

/-- The key sequence a YAML dump emits for a document: `sort_keys`
chooses between sorted order and the mapping's insertion order.  The
uploader passes `sort_keys=False` to `yaml.safe_dump`, and the script's
`ruamel` round-trip dumper keeps insertion order as well. -/
def dumpedKeys (sort_keys : Bool) (d : YVal) : List String :=
  match d with
  | .map kvs =>
    if sort_keys then (kvs.map Prod.fst).insertionSort (fun a b => a ≤ b)
    else kvs.map Prod.fst
  | _ => []

namespace Uploader

/-- `FleetGitOpsUploader._write_yaml`: `path.open("w")` succeeds only
when the parent directory already exists — the function creates no
directory.  On success the document is stored under the path. -/
def _write_yaml (fs : FS) (path : List String) (data : YVal) : Option FS :=
  if path.dropLast ∈ fs.dirs then
    some ⟨fs.dirs, upsertFile fs.files path data⟩
  else none

/-- A working tree for the commit step: the paths with staged changes
and the paths with unstaged or untracked changes. -/
structure WorkTree where
  staged : List String
  unstaged : List String

/-- Output lines of `git status --porcelain`: one line per changed
path, staged or not. -/
def status_porcelain (w : WorkTree) : List String :=
  w.staged ++ w.unstaged

/-- External `git commit -m` behavior on the working tree: with no
staged changes the command exits non-zero (`nothing added to commit`),
otherwise it records one commit carrying the message. -/
def gitCommitCmd (w : WorkTree) (message : String) : Except String String :=
  if w.staged.isEmpty then .error "nothing added to commit" else .ok message

/-- The commit message built in `FleetGitOpsUploader.main`:
`feat(software):` followed by title, version and bracketed slug. -/
def commit_message (software_title version software_slug : String) : String :=
  "feat(software): " ++ software_title ++ " " ++ version ++ " [" ++ software_slug ++ "]"

/-- `FleetGitOpsUploader._git_safe_commit`: run `git status
--porcelain`; when its output is empty do nothing, otherwise run `git
commit -m message` (and surface its failure as a fatal error, as
`_git` raises on a non-zero exit).  `ok none` means the commit was
skipped, `ok (some m)` that one commit with message `m` was made. -/
def _git_safe_commit (w : WorkTree) (message : String) : Except String (Option String) :=
  if status_porcelain w = [] then .ok none
  else
    match gitCommitCmd w message with
    | .ok m => .ok (some m)
    | .error e => .error e

/-- The create-PR response as `_open_pull_request` inspects it: HTTP
status, raw text, and the optional `html_url` and `number` fields of
the JSON body. -/
structure CreateResp where
  status : Nat
  text : String
  html_url : Option String
  number : Option Nat

/-- The search response as `_find_existing_pr_url` inspects it:
whether the request was `ok`, and the `html_url`s of the items. -/
structure SearchResp where
  ok : Bool
  items : List String

/-- `FleetGitOpsUploader._find_existing_pr_url`: on an `ok` response
with a non-empty item list, the first item's URL; otherwise the empty
string. -/
def _find_existing_pr_url (r : SearchResp) : String :=
  if r.ok ∧ r.items ≠ [] then r.items.headD "" else ""

/-- The `pr.get("html_url") or self._find_existing_pr_url(...)` chain
of `_open_pull_request`: a missing or falsy `html_url` falls back to
the search. -/
def resolved_pr_url (create : CreateResp) (search : SearchResp) : String :=
  match create.html_url with
  | some u => if u = "" then _find_existing_pr_url search else u
  | none => _find_existing_pr_url search

/-- Condition under which `_open_pull_request` fires the secondary
label call: labels requested, a URL resolved, and a `number` in the
create response. -/
def label_call_attempted (create : CreateResp) (search : SearchResp)
    (labels : List String) : Bool :=
  !labels.isEmpty && resolved_pr_url create search != "" && create.number.isSome

/-- `FleetGitOpsUploader._open_pull_request`: statuses other than 201
and 422 raise a fatal error carrying the upstream status and text;
otherwise the resolved URL is returned.  The label call's response
status (`label_resp_status`) is received and discarded by the source,
so it cannot influence the result. -/
def _open_pull_request (create : CreateResp) (search : SearchResp)
    (label_resp_status : Nat) (labels : List String) : Except (Nat × String) String :=
  if create.status = 201 ∨ create.status = 422 then
    let _ := label_call_attempted create search labels
    let _ := label_resp_status
    .ok (resolved_pr_url create search)
  else .error (create.status, create.text)

end Uploader

namespace Scripts

/-- `update_gitops.dump_yaml`: `path.parent.mkdir(parents=True,
exist_ok=True)` creates the parent directory chain first, then the
document is written. -/
def dump_yaml (fs : FS) (path : List String) (data : YVal) : FS :=
  ⟨fs.dirs ++ path.dropLast.inits, upsertFile fs.files path data⟩

/-- The opening literal `version_compare("` of the policy regex. -/
def openPat : List Char :=
  "version_compare(".data ++ ['"']

/-- The closing literal of the policy regex: a quote and a closing
parenthesis. -/
def closePat : List Char :=
  ['"', ')']

/-- Match the non-greedy `.*?"\)` tail of the policy regex: the
shortest literal (without newline, which `.` cannot match) up to the
closing quote-parenthesis, together with the rest of the text. -/
def findClose : List Char → Option (List Char × List Char)
  | [] => none
  | c :: rest =>
    if c = '"' ∧ rest.head? = some ')' then some ([], rest.tail)
    else if c = '\n' then none
    else (findClose rest).map (fun pr => (c :: pr.1, pr.2))

/-- Leftmost match of the regex `version_compare\(".*?"\)` in a text:
returns the text before the match, the quoted literal, and the text
after the match. -/
def findMatch : List Char → Option (List Char × List Char × List Char)
  | [] => none
  | c :: rest =>
    if openPat.isPrefixOf (c :: rest) then
      match findClose ((c :: rest).drop openPat.length) with
      | some pr => some ([], pr.1, pr.2)
      | none => (findMatch rest).map (fun t => (c :: t.1, t.2.1, t.2.2))
    else (findMatch rest).map (fun t => (c :: t.1, t.2.1, t.2.2))

/-- Fuelled worker for `bumpText`: each step rewrites the leftmost
match and continues after it, exactly as `re.sub` substitutes all
non-overlapping matches left to right.  A match consumes at least the
pattern's length, so `t.length` steps of fuel always suffice. -/
def bumpTextFuel (version : List Char) : Nat → List Char → List Char
  | 0, t => t
  | fuel + 1, t =>
    match findMatch t with
    | none => t
    | some (b, _, a) =>
      b ++ openPat ++ version ++ closePat ++ bumpTextFuel version fuel a

/-- `re.sub(r'version_compare\(".*?"\)', f'version_compare("VERSION")',
text)` as performed by `update_gitops.bump_policy`. -/
def bumpText (version : List Char) (t : List Char) : List Char :=
  bumpTextFuel version t.length t

/-- `update_gitops.bump_policy` on the policy file: a missing file is
left alone; otherwise the text is rewritten, and the file is written
back only when the rewrite changed it.  The boolean reports whether a
write happened. -/
def bump_policy (file : Option (List Char)) (version : List Char) :
    Option (List Char) × Bool :=
  match file with
  | none => (none, false)
  | some text =>
    let nt := bumpText version text
    if nt = text then (some text, false) else (some nt, true)

end Scripts

/-! ## Helper lemmas about the Python-dict model -/

theorem pyGet_nil (k : String) : pyGet [] k = none := rfl

theorem pyGet_cons (k0 k : String) (v0 : YVal) (d : List (String × YVal)) :
    pyGet ((k0, v0) :: d) k = if k0 = k then some v0 else pyGet d k := by
  by_cases h : k0 = k <;> simp [pyGet, List.find?, h]

theorem pyGet_append (d1 d2 : List (String × YVal)) (k : String) :
    pyGet (d1 ++ d2) k = (pyGet d1 k).orElse (fun _ => pyGet d2 k) := by
  induction d1 with
  | nil => simp [pyGet]
  | cons a d ih =>
    rw [List.cons_append, show a = (a.1, a.2) from rfl, pyGet_cons, pyGet_cons]
    by_cases h : a.1 = k
    · simp only [if_pos h]
      rfl
    · simp only [if_neg h, ih]

theorem pyGet_append_none {d1 : List (String × YVal)} {k : String}
    (d2 : List (String × YVal)) (h : pyGet d1 k = none) :
    pyGet (d1 ++ d2) k = pyGet d2 k := by
  simp [pyGet_append, h]

theorem pyGet_pySet_self (d : List (String × YVal)) (k : String) (v : YVal) :
    pyGet (pySet d k v) k = some v := by
  induction d with
  | nil => simp [pySet, pyGet_cons]
  | cons a d ih =>
    obtain ⟨k0, v0⟩ := a
    by_cases h : k0 = k
    · simp [pySet, h, pyGet_cons]
    · simp only [pySet, if_neg h]
      rw [pyGet_cons]
      simp [h, ih]

theorem pyGet_pySet_ne (d : List (String × YVal)) (k k' : String) (v : YVal)
    (h : k ≠ k') : pyGet (pySet d k v) k' = pyGet d k' := by
  induction d with
  | nil => simp [pySet, pyGet_cons, h, pyGet]
  | cons a d ih =>
    obtain ⟨k0, v0⟩ := a
    by_cases hh : k0 = k
    · subst hh
      simp [pySet, pyGet_cons, h]
    · simp only [pySet, if_neg hh]
      rw [pyGet_cons, pyGet_cons]
      by_cases h2 : k0 = k' <;> simp [h2, ih]

theorem pyGet_pySetdefault_self (d : List (String × YVal)) (k : String) (v : YVal) :
    pyGet (pySetdefault d k v) k = some ((pyGet d k).getD v) := by
  cases h : pyGet d k with
  | some w => simp [pySetdefault, h]
  | none => simp [pySetdefault, h, pyGet_append_none _ h, pyGet_cons]

theorem pyGet_pySetdefault_ne (d : List (String × YVal)) (k k' : String) (v : YVal)
    (h : k ≠ k') : pyGet (pySetdefault d k v) k' = pyGet d k' := by
  cases hh : pyGet d k with
  | some w => simp [pySetdefault, hh]
  | none =>
    simp only [pySetdefault, hh, Option.isSome_none, Bool.false_eq_true, if_false]
    rw [pyGet_append]
    have hk : pyGet [(k, v)] k' = none := by simp [pyGet_cons, h, pyGet]
    simp only [hk]
    cases pyGet d k' <;> rfl

/-! ## C6: YAML reads never fail on absent or empty content -/

/-- Claim C6: in both implementations, reading a nonexistent file
returns an empty mapping rather than an error, and reading a file
whose parse result is null also returns an empty mapping. -/
theorem C6_yaml_read_total :
    Uploader._read_yaml none = YVal.map [] ∧
    Uploader._read_yaml (some YVal.null) = YVal.map [] ∧
    Scripts.load_yaml none = YVal.map [] ∧
    Scripts.load_yaml (some YVal.null) = YVal.map [] :=
  ⟨rfl, rfl, rfl, rfl⟩

/-! ## C3: field policy of the merge variant -/

/-- Claim C3 counterexample: `ensure_pkgfile` does not refresh
`platform`.  On a prior document whose spec carries `platform:
windows`, the resulting spec still carries `windows`, not the value
`darwin` that a refresh would write. -/
theorem C3_platform_not_refreshed_cex :
    Scripts.ensure_pkgfile
        [("spec", YVal.map [("platform", YVal.s "windows"), ("name", YVal.s "Old")])]
        "New" "h1"
      = some [("spec", YVal.map [("platform", YVal.s "windows"), ("name", YVal.s "Old"),
              ("hash_sha256", YVal.s "h1")])] ∧
    spec_field [("spec", YVal.map [("platform", YVal.s "windows"), ("name", YVal.s "Old"),
        ("hash_sha256", YVal.s "h1")])] "platform" = some (YVal.s "windows") ∧
    ("windows" : String) ≠ "darwin" :=
  ⟨rfl, rfl, by decide⟩

/-- Claim C3 (amended): in the merge variant `ensure_pkgfile`, for
every prior document state the resulting spec's `hash_sha256` equals
the newly supplied value (always refreshed), while `name` and
`platform` keep their prior value whenever one was present (set only
if absent, first-write wins; `platform` defaults to `darwin`). -/
theorem C3_merge_field_policy (prior : List (String × YVal)) (name hash_value : String)
    (out : List (String × YVal))
    (h : Scripts.ensure_pkgfile prior name hash_value = some out) :
    spec_field out "hash_sha256" = some (YVal.s hash_value) ∧
    spec_field out "name" = some ((spec_field prior "name").getD (YVal.s name)) ∧
    spec_field out "platform" = some ((spec_field prior "platform").getD (YVal.s "darwin")) := by
  have hne1 : ("hash_sha256" : String) ≠ "name" := by decide
  have hne2 : ("platform" : String) ≠ "name" := by decide
  have hne3 : ("hash_sha256" : String) ≠ "platform" := by decide
  have hne4 : ("name" : String) ≠ "platform" := by decide
  rw [Scripts.ensure_pkgfile] at h
  split at h
  · next hemp =>
    have hpr : prior = [] := List.isEmpty_iff.mp hemp
    subst hpr
    obtain rfl := Option.some.inj h
    refine ⟨?_, ?_, ?_⟩ <;> simp [spec_field, pyGet_cons, pyGet]
  · split at h
    · next spec0 hs =>
      obtain rfl := Option.some.inj h
      have hspec : ∀ k, spec_field (pySet prior "spec"
          (YVal.map (pySet (pySetdefault (pySetdefault spec0 "name" (YVal.s name))
            "platform" (YVal.s "darwin")) "hash_sha256" (YVal.s hash_value)))) k =
          pyGet (pySet (pySetdefault (pySetdefault spec0 "name" (YVal.s name))
            "platform" (YVal.s "darwin")) "hash_sha256" (YVal.s hash_value)) k := by
        intro k
        unfold spec_field
        rw [pyGet_pySet_self]
      simp only [hspec]
      refine ⟨?_, ?_, ?_⟩
      · rw [pyGet_pySet_self]
      · rw [pyGet_pySet_ne _ _ _ _ hne1, pyGet_pySetdefault_ne _ _ _ _ hne2,
          pyGet_pySetdefault_self]
        unfold spec_field
        rw [hs]
      · rw [pyGet_pySet_ne _ _ _ _ hne3, pyGet_pySetdefault_self,
          pyGet_pySetdefault_ne _ _ _ _ hne4]
        unfold spec_field
        rw [hs]
    · next hs =>
      obtain rfl := Option.some.inj h
      have hspec : ∀ k, spec_field (pySet prior "spec"
          (YVal.map (pySet (pySetdefault (pySetdefault [] "name" (YVal.s name))
            "platform" (YVal.s "darwin")) "hash_sha256" (YVal.s hash_value)))) k =
          pyGet (pySet (pySetdefault (pySetdefault [] "name" (YVal.s name))
            "platform" (YVal.s "darwin")) "hash_sha256" (YVal.s hash_value)) k := by
        intro k
        unfold spec_field
        rw [pyGet_pySet_self]
      simp only [hspec]
      refine ⟨?_, ?_, ?_⟩
      · rw [pyGet_pySet_self]
      · rw [pyGet_pySet_ne _ _ _ _ hne1, pyGet_pySetdefault_ne _ _ _ _ hne2,
          pyGet_pySetdefault_self]
        unfold spec_field
        rw [hs]
        simp [pyGet]
      · rw [pyGet_pySet_ne _ _ _ _ hne3, pyGet_pySetdefault_self,
          pyGet_pySetdefault_ne _ _ _ _ hne4]
        unfold spec_field
        rw [hs]
        simp [pyGet]
    · next hv =>
      exact absurd h (by simp)

/-- Claim C3 witness: the amended field policy evaluated on a concrete
prior document that already carries `platform` and `name`. -/
theorem C3_merge_field_policy_witness :
    spec_field [("spec", YVal.map [("platform", YVal.s "windows"), ("name", YVal.s "Old"),
        ("hash_sha256", YVal.s "h1")])] "hash_sha256" = some (YVal.s "h1") ∧
    spec_field [("spec", YVal.map [("platform", YVal.s "windows"), ("name", YVal.s "Old"),
        ("hash_sha256", YVal.s "h1")])] "name" =
      some ((spec_field [("spec", YVal.map [("platform", YVal.s "windows"),
        ("name", YVal.s "Old")])] "name").getD (YVal.s "New")) ∧
    spec_field [("spec", YVal.map [("platform", YVal.s "windows"), ("name", YVal.s "Old"),
        ("hash_sha256", YVal.s "h1")])] "platform" =
      some ((spec_field [("spec", YVal.map [("platform", YVal.s "windows"),
        ("name", YVal.s "Old")])] "platform").getD (YVal.s "darwin")) :=
  C3_merge_field_policy
    [("spec", YVal.map [("platform", YVal.s "windows"), ("name", YVal.s "Old")])]
    "New" "h1"
    [("spec", YVal.map [("platform", YVal.s "windows"), ("name", YVal.s "Old"),
      ("hash_sha256", YVal.s "h1")])]
    rfl

/-! ## C2: the full-overwrite package document -/

theorem orElse_none_right (o : Option YVal) : (o.orElse fun _ => none) = o := by
  cases o <;> rfl

theorem pyGet_ite_seg {P : Prop} [Decidable P] (k0 k : String) (v : YVal) :
    pyGet (if P then [(k0, v)] else []) k =
      if P then (if k0 = k then some v else none) else none := by
  split
  · by_cases hk : k0 = k <;> simp [pyGet_cons, pyGet, hk]
  · simp [pyGet]

theorem pyGet_ite_seg_swap {P : Prop} [Decidable P] (k0 k : String) (v : YVal) :
    pyGet (if P then [] else [(k0, v)]) k =
      if P then none else (if k0 = k then some v else none) := by
  split
  · simp [pyGet]
  · by_cases hk : k0 = k <;> simp [pyGet_cons, pyGet, hk]

/-- Claim C2: the full-overwrite `EnsurePackageDocument` builds the
document entirely from the supplied fields (the prior package block
cannot influence the output); the block always contains `name`,
`version` and `platform`; `hash_sha256` appears only when a non-empty
hash was supplied, `self_service` only when true, the label lists only
when non-empty, `automatic_install` only when requested on platform
darwin/macos, and each supplied script field is wrapped as a
`contents` (resp. `query`) mapping; and the upload guard fails exactly
when both label sets are non-empty. -/
theorem C2_package_document_overwrite
    (prior prior2 : YVal) (software_title version platform : String)
    (hash_sha256 : Option String) (self_service : Bool)
    (labels_include_any labels_exclude_any : List String) (automatic_install : Bool)
    (pre_install_query install_script uninstall_script post_install_script : String) :
    Uploader._write_or_update_package_yaml prior software_title version platform
        hash_sha256 self_service labels_include_any labels_exclude_any automatic_install
        pre_install_query install_script uninstall_script post_install_script =
      Uploader._write_or_update_package_yaml prior2 software_title version platform
        hash_sha256 self_service labels_include_any labels_exclude_any automatic_install
        pre_install_query install_script uninstall_script post_install_script ∧
    Uploader._write_or_update_package_yaml prior software_title version platform
        hash_sha256 self_service labels_include_any labels_exclude_any automatic_install
        pre_install_query install_script uninstall_script post_install_script =
      YVal.map [("package", YVal.map (Uploader.pkg_block software_title version platform
        hash_sha256 self_service labels_include_any labels_exclude_any automatic_install
        pre_install_query install_script uninstall_script post_install_script))] ∧
    pyGet (Uploader.pkg_block software_title version platform hash_sha256 self_service
        labels_include_any labels_exclude_any automatic_install pre_install_query
        install_script uninstall_script post_install_script) "name" =
      some (YVal.s software_title) ∧
    pyGet (Uploader.pkg_block software_title version platform hash_sha256 self_service
        labels_include_any labels_exclude_any automatic_install pre_install_query
        install_script uninstall_script post_install_script) "version" =
      some (YVal.s version) ∧
    pyGet (Uploader.pkg_block software_title version platform hash_sha256 self_service
        labels_include_any labels_exclude_any automatic_install pre_install_query
        install_script uninstall_script post_install_script) "platform" =
      some (YVal.s platform) ∧
    pyGet (Uploader.pkg_block software_title version platform hash_sha256 self_service
        labels_include_any labels_exclude_any automatic_install pre_install_query
        install_script uninstall_script post_install_script) "hash_sha256" =
      (match hash_sha256 with
       | some h => if h = "" then none else some (YVal.s h)
       | none => none) ∧
    pyGet (Uploader.pkg_block software_title version platform hash_sha256 self_service
        labels_include_any labels_exclude_any automatic_install pre_install_query
        install_script uninstall_script post_install_script) "self_service" =
      (if self_service then some (YVal.b true) else none) ∧
    pyGet (Uploader.pkg_block software_title version platform hash_sha256 self_service
        labels_include_any labels_exclude_any automatic_install pre_install_query
        install_script uninstall_script post_install_script) "labels_include_any" =
      (if labels_include_any ≠ [] then
        some (YVal.list (labels_include_any.map YVal.s)) else none) ∧
    pyGet (Uploader.pkg_block software_title version platform hash_sha256 self_service
        labels_include_any labels_exclude_any automatic_install pre_install_query
        install_script uninstall_script post_install_script) "labels_exclude_any" =
      (if labels_exclude_any ≠ [] then
        some (YVal.list (labels_exclude_any.map YVal.s)) else none) ∧
    pyGet (Uploader.pkg_block software_title version platform hash_sha256 self_service
        labels_include_any labels_exclude_any automatic_install pre_install_query
        install_script uninstall_script post_install_script) "automatic_install" =
      (if automatic_install ∧ (platform = "darwin" ∨ platform = "macos") then
        some (YVal.b true) else none) ∧
    pyGet (Uploader.pkg_block software_title version platform hash_sha256 self_service
        labels_include_any labels_exclude_any automatic_install pre_install_query
        install_script uninstall_script post_install_script) "pre_install_query" =
      (if pre_install_query ≠ "" then
        some (YVal.map [("query", YVal.s pre_install_query)]) else none) ∧
    pyGet (Uploader.pkg_block software_title version platform hash_sha256 self_service
        labels_include_any labels_exclude_any automatic_install pre_install_query
        install_script uninstall_script post_install_script) "install_script" =
      (if install_script ≠ "" then
        some (YVal.map [("contents", YVal.s install_script)]) else none) ∧
    pyGet (Uploader.pkg_block software_title version platform hash_sha256 self_service
        labels_include_any labels_exclude_any automatic_install pre_install_query
        install_script uninstall_script post_install_script) "uninstall_script" =
      (if uninstall_script ≠ "" then
        some (YVal.map [("contents", YVal.s uninstall_script)]) else none) ∧
    pyGet (Uploader.pkg_block software_title version platform hash_sha256 self_service
        labels_include_any labels_exclude_any automatic_install pre_install_query
        install_script uninstall_script post_install_script) "post_install_script" =
      (if post_install_script ≠ "" then
        some (YVal.map [("contents", YVal.s post_install_script)]) else none) ∧
    ((Uploader._fleet_upload_label_guard labels_include_any labels_exclude_any ≠
        Except.ok ()) ↔ (labels_include_any ≠ [] ∧ labels_exclude_any ≠ [])) := by
  have guard : (Uploader._fleet_upload_label_guard labels_include_any labels_exclude_any ≠
      Except.ok ()) ↔ (labels_include_any ≠ [] ∧ labels_exclude_any ≠ []) := by
    unfold Uploader._fleet_upload_label_guard
    split
    · next hcond => simp [hcond]
    · next hcond => simp [hcond]
  cases hash_sha256 with
  | none =>
    refine ⟨rfl, rfl, ?_, ?_, ?_, ?_, ?_, ?_, ?_, ?_, ?_, ?_, ?_, ?_, guard⟩ <;>
      simp [Uploader.pkg_block, List.append_assoc, pyGet_append, pyGet_cons,
        pyGet_ite_seg, pyGet_ite_seg_swap, orElse_none_right, pyGet_nil]
  | some hv =>
    by_cases hh : hv = "" <;>
      (refine ⟨rfl, rfl, ?_, ?_, ?_, ?_, ?_, ?_, ?_, ?_, ?_, ?_, ?_, ?_, guard⟩ <;>
        simp [hh, Uploader.pkg_block, List.append_assoc, pyGet_append, pyGet_cons,
          pyGet_ite_seg, pyGet_ite_seg_swap, orElse_none_right, pyGet_nil])

/-! ## C9: pull-request publisher error discipline -/

/-- Claim C9: a create-PR conflict (422) is not an error — the
publisher falls back to searching open PRs and returns the found URL;
every other non-success status raises a fatal error carrying the
upstream status and message; and the label call's outcome can never
change the overall result. -/
theorem C9_pull_request_error_discipline
    (create : Uploader.CreateResp) (search : Uploader.SearchResp)
    (o1 o2 : Nat) (labels : List String) :
    (create.status ≠ 201 → create.status ≠ 422 →
      Uploader._open_pull_request create search o1 labels =
        Except.error (create.status, create.text)) ∧
    (create.status = 422 → create.html_url = none →
      Uploader._open_pull_request create search o1 labels =
        Except.ok (Uploader._find_existing_pr_url search)) ∧
    Uploader._open_pull_request create search o1 labels =
      Uploader._open_pull_request create search o2 labels := by
  refine ⟨?_, ?_, rfl⟩
  · intro h1 h2
    simp [Uploader._open_pull_request, h1, h2]
  · intro h1 h2
    simp [Uploader._open_pull_request, h1, Uploader.resolved_pr_url, h2]

/-- Claim C9 witness: a 500 response raises the fatal error with its
status and body, while a 422 conflict response falls back to the
searched URL, at concrete inputs. -/
theorem C9_pull_request_witness :
    Uploader._open_pull_request ⟨500, "boom", none, none⟩ ⟨true, ["u1"]⟩ 0 [] =
      Except.error (500, "boom") ∧
    Uploader._open_pull_request ⟨422, "conflict", none, some 7⟩ ⟨true, ["u1"]⟩ 404 ["lbl"] =
      Except.ok (Uploader._find_existing_pr_url ⟨true, ["u1"]⟩) :=
  ⟨(C9_pull_request_error_discipline ⟨500, "boom", none, none⟩ ⟨true, ["u1"]⟩ 0 0 []).1
      (by decide) (by decide),
   (C9_pull_request_error_discipline ⟨422, "conflict", none, some 7⟩ ⟨true, ["u1"]⟩
      404 404 ["lbl"]).2.1 rfl rfl⟩

/-! ## C8: the conditional commit step -/

/-- Claim C8 (code-bug evaluation): `_git_safe_commit` decides with
`git status --porcelain`, whose output also lists unstaged and
untracked changes.  On a working tree with an unstaged change and
nothing staged, the porcelain output is non-empty, so the code issues
`git commit`, which fails with nothing staged and raises — while the
claim (and the source's own comment `commit only if staged changes
exist`) promises a silent skip.  With staged changes, exactly one
commit with the deterministic message is made. -/
theorem C8_commit_skip_bug_eval :
    Uploader.status_porcelain ⟨[], ["teams/ws.yml"]⟩ ≠ [] ∧
    Uploader._git_safe_commit ⟨[], ["teams/ws.yml"]⟩
        (Uploader.commit_message "Firefox" "1.2.3" "firefox") =
      Except.error "nothing added to commit" ∧
    Uploader.commit_message "Firefox" "1.2.3" "firefox" =
      "feat(software): Firefox 1.2.3 [firefox]" ∧
    Uploader._git_safe_commit ⟨["lib/sw.yml"], []⟩
        (Uploader.commit_message "Firefox" "1.2.3" "firefox") =
      Except.ok (some "feat(software): Firefox 1.2.3 [firefox]") :=
  ⟨by decide, rfl, by decide, rfl⟩

/-! ## C7: YAML write, key order and parent directories -/

/-- Claim C7 counterexample: the uploader's `_write_yaml` creates no
parent directory — a write to a path under a nonexistent directory
fails instead of succeeding. -/
theorem C7_write_no_mkdir_cex :
    Uploader._write_yaml ⟨[[]], []⟩ ["lib", "sw.yml"] (YVal.map []) = none := by
  rw [Uploader._write_yaml, if_neg]
  decide

/-- Claim C7 (amended): both YAML dumpers serialize mapping keys in
the caller's insertion order (no alphabetical resort); the script's
`dump_yaml` creates the missing parent directories before writing and
always succeeds, while the uploader's `_write_yaml` performs no
directory creation — it succeeds exactly when the parent directory
already exists and fails otherwise. -/
theorem C7_yaml_write_order_and_dirs (kvs : List (String × YVal)) (fs : FS)
    (p : List String) (d : YVal) :
    dumpedKeys false (YVal.map kvs) = kvs.map Prod.fst ∧
    (Scripts.dump_yaml fs p d).files = upsertFile fs.files p d ∧
    p.dropLast ∈ (Scripts.dump_yaml fs p d).dirs ∧
    (p.dropLast ∈ fs.dirs →
      Uploader._write_yaml fs p d = some ⟨fs.dirs, upsertFile fs.files p d⟩) ∧
    (p.dropLast ∉ fs.dirs → Uploader._write_yaml fs p d = none) := by
  refine ⟨rfl, rfl, ?_, ?_, ?_⟩
  · have hself : p.dropLast ∈ p.dropLast.inits := by
      rw [List.mem_inits]
    show p.dropLast ∈ fs.dirs ++ p.dropLast.inits
    exact List.mem_append.mpr (Or.inr hself)
  · intro h
    simp [Uploader._write_yaml, h]
  · intro h
    simp [Uploader._write_yaml, h]

/-- Claim C7 witness: the amended write behavior evaluated on a
concrete file system holding the parent directory. -/
theorem C7_yaml_write_witness :
    Uploader._write_yaml ⟨[[], ["teams"]], []⟩ ["teams", "ws.yml"] (YVal.map []) =
      some ⟨[[], ["teams"]], upsertFile [] ["teams", "ws.yml"] (YVal.map [])⟩ :=
  (C7_yaml_write_order_and_dirs [] ⟨[[], ["teams"]], []⟩ ["teams", "ws.yml"]
    (YVal.map [])).2.2.2.1 (by decide)

/-! ## C1 and C4: the team-reference ensure operation -/

theorem ensureTeamLoop_fixpoint (tgt : String) (ss : Bool) :
    ∀ entries l, Scripts.ensureTeamLoop tgt ss entries = some l →
      Scripts.ensureTeamLoop tgt ss l = some l := by
  intro entries
  induction entries with
  | nil =>
    intro l h
    obtain rfl := Option.some.inj h
    simp [Scripts.ensureTeamLoop]
  | cons e rest ih =>
    intro l h
    cases e with
    | str s0 => exact absurd h (by simp [Scripts.ensureTeamLoop])
    | map pp s0 =>
      rw [Scripts.ensureTeamLoop] at h
      by_cases hp : pp = some tgt
      · rw [if_pos hp] at h
        obtain rfl := Option.some.inj h
        rw [Scripts.ensureTeamLoop, if_pos hp]
      · rw [if_neg hp] at h
        cases hrest : Scripts.ensureTeamLoop tgt ss rest with
        | none => rw [hrest] at h; exact absurd h (by simp)
        | some l2 =>
          rw [hrest] at h
          simp only [Option.map_some'] at h
          obtain rfl := Option.some.inj h
          rw [Scripts.ensureTeamLoop, if_neg hp, ih l2 hrest]
          rfl

theorem ensureTeamLoop_shape (tgt : String) (ss : Bool) :
    ∀ entries l, Scripts.ensureTeamLoop tgt ss entries = some l →
      (∃ pre pp s0 post,
        entries = pre ++ Scripts.TeamEntry.map pp s0 :: post ∧
        pp = some tgt ∧
        (∀ e ∈ pre, Scripts.entryPath e ≠ some tgt) ∧
        l = pre ++ Scripts.TeamEntry.map pp (some ss) :: post) ∨
      ((∀ e ∈ entries, Scripts.entryPath e ≠ some tgt) ∧
        l = entries ++ [Scripts.TeamEntry.map (some tgt) (some ss)]) := by
  intro entries
  induction entries with
  | nil =>
    intro l h
    obtain rfl := Option.some.inj h
    right
    exact ⟨by simp, by simp⟩
  | cons e rest ih =>
    intro l h
    cases e with
    | str s0 => exact absurd h (by simp [Scripts.ensureTeamLoop])
    | map pp s0 =>
      rw [Scripts.ensureTeamLoop] at h
      by_cases hp : pp = some tgt
      · rw [if_pos hp] at h
        obtain rfl := Option.some.inj h
        left
        exact ⟨[], pp, s0, rest, by simp, hp, by simp, by simp⟩
      · rw [if_neg hp] at h
        cases hrest : Scripts.ensureTeamLoop tgt ss rest with
        | none => rw [hrest] at h; exact absurd h (by simp)
        | some l2 =>
          rw [hrest] at h
          simp only [Option.map_some'] at h
          obtain rfl := Option.some.inj h
          rcases ih l2 hrest with ⟨pre, pp2, s2, post, he, hp2, hpre, hl⟩ | ⟨hall, hl⟩
          · left
            refine ⟨Scripts.TeamEntry.map pp s0 :: pre, pp2, s2, post, by simp [he],
              hp2, ?_, by simp [hl]⟩
            intro e he2
            rcases List.mem_cons.mp he2 with rfl | hmem
            · simpa [Scripts.entryPath] using hp
            · exact hpre e hmem
          · right
            refine ⟨?_, by simp [hl]⟩
            intro e he2
            rcases List.mem_cons.mp he2 with rfl | hmem
            · simpa [Scripts.entryPath] using hp
            · exact hall e hmem

/-- Claim C1 counterexample: the claim fails in two places.  First,
an ensure run does not deduplicate: on a document already holding two
entries normalizing to the same path, the sequence still holds
duplicates after the operation.  Second, the script variant rewrites
the matching entry's `self_service` field, so the content of a
pre-existing entry is not preserved. -/
theorem C1_ensure_team_cex :
    ¬ ((Uploader.ensure_team_packages
        [Uploader.PkgRef.dict (some "a"), Uploader.PkgRef.dict (some "a")] "b").1.map
        Uploader.pkg_ref).Nodup ∧
    Scripts.ensure_team
        [Scripts.TeamEntry.map (some "../lib/software/x.package.yml") (some false)]
        "x" true =
      some [Scripts.TeamEntry.map (some "../lib/software/x.package.yml") (some true)] ∧
    Scripts.TeamEntry.map (some "../lib/software/x.package.yml") (some true) ≠
      Scripts.TeamEntry.map (some "../lib/software/x.package.yml") (some false) :=
  ⟨by decide, by decide, by decide⟩

/-- Claim C1 (amended): the ensure operation called a second time with
the same reference reports `changed=false` and leaves the sequence
unchanged (in particular its length); it never removes or reorders
pre-existing entries — the uploader leaves the sequence untouched or
appends the new reference at the end, and the script variant leaves
every non-matching entry untouched in place, refreshing only the first
matching entry's `self_service` field, or appends at the end when no
entry matches; and when no two entries normalize to the same path
beforehand, none do afterwards. -/
theorem C1_ensure_team_reference (pkgs : List Uploader.PkgRef) (ref_path : String)
    (entries : List Scripts.TeamEntry) (slug : String) (ss : Bool) :
    (Uploader.ensure_team_packages (Uploader.ensure_team_packages pkgs ref_path).1
        ref_path = ((Uploader.ensure_team_packages pkgs ref_path).1, false)) ∧
    ((Uploader.ensure_team_packages pkgs ref_path).1 = pkgs ∨
      (Uploader.ensure_team_packages pkgs ref_path).1 =
        pkgs ++ [Uploader.PkgRef.dict (some ref_path)]) ∧
    ((pkgs.map Uploader.pkg_ref).Nodup →
      ((Uploader.ensure_team_packages pkgs ref_path).1.map Uploader.pkg_ref).Nodup) ∧
    (∀ l, Scripts.ensure_team entries slug ss = some l →
      Scripts.ensure_team l slug ss = some l ∧
      ((∃ pre pp s0 post,
          entries = pre ++ Scripts.TeamEntry.map pp s0 :: post ∧
          pp = some ("../lib/software/" ++ slug ++ ".package.yml") ∧
          (∀ e ∈ pre, Scripts.entryPath e ≠
            some ("../lib/software/" ++ slug ++ ".package.yml")) ∧
          l = pre ++ Scripts.TeamEntry.map pp (some ss) :: post) ∨
        ((∀ e ∈ entries, Scripts.entryPath e ≠
            some ("../lib/software/" ++ slug ++ ".package.yml")) ∧
          l = entries ++ [Scripts.TeamEntry.map
            (some ("../lib/software/" ++ slug ++ ".package.yml")) (some ss)]))) := by
  refine ⟨?_, ?_, ?_, ?_⟩
  · by_cases hm : ref_path ∈ pkgs.map Uploader.pkg_ref
    · simp [Uploader.ensure_team_packages, hm]
    · simp [Uploader.ensure_team_packages, hm, Uploader.pkg_ref]
  · by_cases hm : ref_path ∈ pkgs.map Uploader.pkg_ref
    · left; simp [Uploader.ensure_team_packages, hm]
    · right; simp [Uploader.ensure_team_packages, hm]
  · intro hnd
    by_cases hm : ref_path ∈ pkgs.map Uploader.pkg_ref
    · simpa [Uploader.ensure_team_packages, hm] using hnd
    · have hdj : (pkgs.map Uploader.pkg_ref).Disjoint [ref_path] := by
        intro a ha hb
        simp only [List.mem_singleton] at hb
        subst hb
        exact hm ha
      have hnd2 : (pkgs.map Uploader.pkg_ref ++ [ref_path]).Nodup :=
        List.Nodup.append hnd (List.nodup_singleton _) hdj
      simpa [Uploader.ensure_team_packages, hm, Uploader.pkg_ref] using hnd2
  · intro l h
    exact ⟨ensureTeamLoop_fixpoint _ ss entries l h,
      ensureTeamLoop_shape _ ss entries l h⟩

/-- Claim C1 witness: the amended statement evaluated on a concrete
team document with one unrelated entry. -/
theorem C1_ensure_team_witness :
    ((([Uploader.PkgRef.str "other.yml"] : List Uploader.PkgRef).map
        Uploader.pkg_ref).Nodup →
      ((Uploader.ensure_team_packages [Uploader.PkgRef.str "other.yml"] "new.yml").1.map
        Uploader.pkg_ref).Nodup) ∧
    (∀ l, Scripts.ensure_team [Scripts.TeamEntry.map (some "x") (some true)] "fire" true =
        some l → Scripts.ensure_team l "fire" true = some l ∧
      ((∃ pre pp s0 post,
          [Scripts.TeamEntry.map (some "x") (some true)] =
            pre ++ Scripts.TeamEntry.map pp s0 :: post ∧
          pp = some ("../lib/software/" ++ "fire" ++ ".package.yml") ∧
          (∀ e ∈ pre, Scripts.entryPath e ≠
            some ("../lib/software/" ++ "fire" ++ ".package.yml")) ∧
          l = pre ++ Scripts.TeamEntry.map pp (some true) :: post) ∨
        ((∀ e ∈ [Scripts.TeamEntry.map (some "x") (some true)], Scripts.entryPath e ≠
            some ("../lib/software/" ++ "fire" ++ ".package.yml")) ∧
          l = [Scripts.TeamEntry.map (some "x") (some true)] ++
            [Scripts.TeamEntry.map
              (some ("../lib/software/" ++ "fire" ++ ".package.yml")) (some true)]))) :=
  ⟨(C1_ensure_team_reference [Uploader.PkgRef.str "other.yml"] "new.yml"
      [Scripts.TeamEntry.map (some "x") (some true)] "fire" true).2.2.1,
   (C1_ensure_team_reference [Uploader.PkgRef.str "other.yml"] "new.yml"
      [Scripts.TeamEntry.map (some "x") (some true)] "fire" true).2.2.2⟩

/-! ## C4: totality of entry normalization -/

/-- Claim C4 counterexample: the script variant's matching loop is not
total over entry shapes — a bare string entry makes `entry.get` raise
(`none` in the model) instead of contributing a comparator. -/
theorem C4_normalization_cex :
    Scripts.ensure_team [Scripts.TeamEntry.str "../lib/software/x.package.yml"]
      "x" true = none := rfl

/-- Claim C4 (amended): the uploader's `pkg_ref` normalizer is total
over all entry shapes — a bare string yields itself, a mapping yields
its `path` value, and any other shape the empty comparator, which
never equals a non-empty reference path; the script variant, in
contrast, is total only over mapping entries. -/
theorem C4_entry_normalization (s p ref_path : String)
    (entries : List Scripts.TeamEntry) (tgt : String) (ss : Bool) :
    Uploader.pkg_ref (Uploader.PkgRef.str s) = s ∧
    Uploader.pkg_ref (Uploader.PkgRef.dict (some p)) = p ∧
    Uploader.pkg_ref (Uploader.PkgRef.dict none) = "" ∧
    Uploader.pkg_ref Uploader.PkgRef.other = "" ∧
    (ref_path ≠ "" → Uploader.pkg_ref Uploader.PkgRef.other ≠ ref_path ∧
      Uploader.pkg_ref (Uploader.PkgRef.dict none) ≠ ref_path) ∧
    ((∀ e ∈ entries, Scripts.isMapEntry e = true) →
      (Scripts.ensureTeamLoop tgt ss entries).isSome = true) := by
  refine ⟨rfl, rfl, rfl, rfl,
    fun h => ⟨fun hc => h hc.symm, fun hc => h hc.symm⟩, ?_⟩
  induction entries with
  | nil => intro; simp [Scripts.ensureTeamLoop]
  | cons e rest ih =>
    intro hall
    cases e with
    | str s2 =>
      have := hall (Scripts.TeamEntry.str s2) (by simp)
      simp [Scripts.isMapEntry] at this
    | map pp s0 =>
      rw [Scripts.ensureTeamLoop]
      by_cases hp : pp = some tgt
      · simp [hp]
      · have hrest := ih (fun e he => hall e (List.mem_cons_of_mem _ he))
        rw [if_neg hp]
        cases hr : Scripts.ensureTeamLoop tgt ss rest with
        | none => rw [hr] at hrest; simp at hrest
        | some l2 => simp

/-- Claim C4 witness: the amended normalization facts evaluated at a
concrete non-empty reference path and a concrete all-mapping team
sequence. -/
theorem C4_entry_normalization_witness :
    (Uploader.pkg_ref Uploader.PkgRef.other ≠ "lib/real.yml" ∧
      Uploader.pkg_ref (Uploader.PkgRef.dict none) ≠ "lib/real.yml") ∧
    (Scripts.ensureTeamLoop "t" true
      [Scripts.TeamEntry.map (some "q") none]).isSome = true :=
  ⟨(C4_entry_normalization "s" "p" "lib/real.yml"
      [Scripts.TeamEntry.map (some "q") none] "t" true).2.2.2.2.1 (by decide),
   (C4_entry_normalization "s" "p" "lib/real.yml"
      [Scripts.TeamEntry.map (some "q") none] "t" true).2.2.2.2.2 (by decide)⟩

/-! ## C10: the policy rewrite -/

theorem findClose_sound (t : List Char) :
    ∀ l r, Scripts.findClose t = some (l, r) → t = l ++ Scripts.closePat ++ r := by
  induction t with
  | nil => intro l r h; exact absurd h (by simp [Scripts.findClose])
  | cons c rest ih =>
    intro l r h
    rw [Scripts.findClose] at h
    by_cases h1 : c = '"' ∧ rest.head? = some ')'
    · rw [if_pos h1] at h
      injection h with h
      injection h with hl hr
      obtain ⟨rfl, hc2⟩ := h1
      cases rest with
      | nil => simp at hc2
      | cons c2 r2 =>
        have hc3 : c2 = ')' := by simpa using hc2
        subst hc3
        subst hl
        subst hr
        simp [Scripts.closePat]
    · rw [if_neg h1] at h
      by_cases h2 : c = '\n'
      · rw [if_pos h2] at h
        exact absurd h (by simp)
      · rw [if_neg h2] at h
        cases hfc : Scripts.findClose rest with
        | none => rw [hfc] at h; exact absurd h (by simp)
        | some pr =>
          obtain ⟨pl, pr2⟩ := pr
          rw [hfc] at h
          simp only [Option.map_some'] at h
          injection h with h
          injection h with hl hr
          subst hl
          subst hr
          have hrest := ih pl pr2 hfc
          simp [hrest]

theorem findMatch_sound (t : List Char) :
    ∀ b lit a, Scripts.findMatch t = some (b, lit, a) →
      t = b ++ Scripts.openPat ++ lit ++ Scripts.closePat ++ a := by
  induction t with
  | nil => intro b lit a h; exact absurd h (by simp [Scripts.findMatch])
  | cons c rest ih =>
    intro b lit a h
    rw [Scripts.findMatch] at h
    by_cases hpre : Scripts.openPat.isPrefixOf (c :: rest) = true
    · rw [if_pos hpre] at h
      cases hfc : Scripts.findClose ((c :: rest).drop Scripts.openPat.length) with
      | some pr =>
        obtain ⟨pl, pa⟩ := pr
        rw [hfc] at h
        injection h with h
        injection h with hb h
        injection h with hlit ha
        subst hb
        subst hlit
        subst ha
        have hsp : Scripts.openPat <+: (c :: rest) :=
          List.isPrefixOf_iff_prefix.mp hpre
        have ht : Scripts.openPat ++ (c :: rest).drop Scripts.openPat.length = c :: rest :=
          List.prefix_iff_eq_append.mp hsp
        have hc := findClose_sound _ pl pa hfc
        rw [← ht, hc]
        simp
      | none =>
        rw [hfc] at h
        cases hfm : Scripts.findMatch rest with
        | none => rw [hfm] at h; exact absurd h (by simp)
        | some tr =>
          obtain ⟨tb, tl, ta⟩ := tr
          rw [hfm] at h
          simp only [Option.map_some'] at h
          injection h with h
          injection h with hb h
          injection h with hlit ha
          subst hb
          subst hlit
          subst ha
          have hrest := ih tb tl ta hfm
          simp [hrest]
    · rw [if_neg hpre] at h
      cases hfm : Scripts.findMatch rest with
      | none => rw [hfm] at h; exact absurd h (by simp)
      | some tr =>
        obtain ⟨tb, tl, ta⟩ := tr
        rw [hfm] at h
        simp only [Option.map_some'] at h
        injection h with h
        injection h with hb h
        injection h with hlit ha
        subst hb
        subst hlit
        subst ha
        have hrest := ih tb tl ta hfm
        simp [hrest]

theorem findMatch_shrink (t b lit a : List Char)
    (h : Scripts.findMatch t = some (b, lit, a)) : a.length < t.length := by
  have hs := findMatch_sound t b lit a h
  have hop : Scripts.openPat.length = 17 := rfl
  have hcl : Scripts.closePat.length = 2 := rfl
  rw [hs]
  simp only [List.length_append, hop, hcl]
  omega

theorem bumpTextFuel_of_none (v : List Char) {t : List Char}
    (hm : Scripts.findMatch t = none) :
    ∀ fuel, Scripts.bumpTextFuel v fuel t = t := by
  intro fuel
  cases fuel with
  | zero => rfl
  | succ n => rw [Scripts.bumpTextFuel, hm]

theorem bumpTextFuel_irrel (v : List Char) :
    ∀ fuel1 fuel2 (t : List Char), t.length ≤ fuel1 → t.length ≤ fuel2 →
      Scripts.bumpTextFuel v fuel1 t = Scripts.bumpTextFuel v fuel2 t := by
  intro fuel1
  induction fuel1 using Nat.strong_induction_on with
  | _ fuel1 ih =>
    intro fuel2 t h1 h2
    cases hm : Scripts.findMatch t with
    | none => rw [bumpTextFuel_of_none v hm, bumpTextFuel_of_none v hm]
    | some tr =>
      obtain ⟨b, lit, a⟩ := tr
      have hlt := findMatch_shrink t b lit a hm
      have ht : t ≠ [] := by
        intro he
        subst he
        simp [Scripts.findMatch] at hm
      cases fuel1 with
      | zero =>
        exact absurd (List.eq_nil_of_length_eq_zero (Nat.le_zero.mp h1)) ht
      | succ n1 =>
        cases fuel2 with
        | zero =>
          exact absurd (List.eq_nil_of_length_eq_zero (Nat.le_zero.mp h2)) ht
        | succ n2 =>
          rw [Scripts.bumpTextFuel, Scripts.bumpTextFuel]
          simp only [hm]
          have ha := ih n1 (Nat.lt_succ_self n1) n2 a (by omega) (by omega)
          rw [ha]

theorem bumpText_eq (v t : List Char) :
    Scripts.bumpText v t =
      (match Scripts.findMatch t with
       | none => t
       | some (b, _, a) =>
         b ++ Scripts.openPat ++ v ++ Scripts.closePat ++ Scripts.bumpText v a) := by
  cases hm : Scripts.findMatch t with
  | none =>
    show Scripts.bumpTextFuel v t.length t = t
    exact bumpTextFuel_of_none v hm t.length
  | some tr =>
    obtain ⟨b, lit, a⟩ := tr
    have hlt := findMatch_shrink t b lit a hm
    have ht : t ≠ [] := by
      intro he
      subst he
      simp [Scripts.findMatch] at hm
    obtain ⟨m, hm2⟩ : ∃ m, t.length = m + 1 := by
      cases t with
      | nil => exact absurd rfl ht
      | cons c r => exact ⟨r.length, rfl⟩
    show Scripts.bumpTextFuel v t.length t = _
    rw [hm2, Scripts.bumpTextFuel]
    simp only [hm]
    have ha : Scripts.bumpTextFuel v m a = Scripts.bumpTextFuel v a.length a :=
      bumpTextFuel_irrel v m a.length a (by omega) (by omega)
    rw [ha]
    rfl

/-- Claim C10: `bump_policy` leaves a missing policy file alone and
performs no write when the rewrite changes nothing; the rewrite itself
leaves a text with no `version_compare` pattern byte-for-byte
unchanged, and on the leftmost match it keeps every byte before the
match, replaces only the quoted literal inside the pattern with the
new version, and continues after the match. -/
theorem C10_bump_policy (version t b lit a : List Char) :
    Scripts.bump_policy none version = (none, false) ∧
    (Scripts.bumpText version t = t →
      Scripts.bump_policy (some t) version = (some t, false)) ∧
    (Scripts.findMatch t = none → Scripts.bumpText version t = t) ∧
    (Scripts.findMatch t = some (b, lit, a) →
      t = b ++ Scripts.openPat ++ lit ++ Scripts.closePat ++ a ∧
      Scripts.bumpText version t =
        b ++ Scripts.openPat ++ version ++ Scripts.closePat ++
          Scripts.bumpText version a) := by
  refine ⟨rfl, ?_, ?_, ?_⟩
  · intro h
    simp [Scripts.bump_policy, h]
  · intro h
    rw [bumpText_eq, h]
  · intro h
    refine ⟨findMatch_sound t b lit a h, ?_⟩
    rw [bumpText_eq, h]

/-- Claim C10 witness: the rewrite evaluated on a concrete policy text
with one match and on a concrete text with none. -/
theorem C10_bump_policy_witness :
    ("x version_compare(\"1\") y".data =
      "x ".data ++ Scripts.openPat ++ "1".data ++ Scripts.closePat ++ " y".data ∧
    Scripts.bumpText "2".data "x version_compare(\"1\") y".data =
      "x ".data ++ Scripts.openPat ++ "2".data ++ Scripts.closePat ++
        Scripts.bumpText "2".data " y".data) ∧
    Scripts.bump_policy (some "plain text".data) "2".data =
      (some "plain text".data, false) :=
  ⟨(C10_bump_policy "2".data "x version_compare(\"1\") y".data "x ".data "1".data
      " y".data).2.2.2 (by decide),
   (C10_bump_policy "2".data "plain text".data [] [] []).2.1 (by decide)⟩

/-! ## C5: slug normalization -/

theorem alnum_ne_dash {c : Char} (h : isLowerAlnum c = true) : c ≠ '-' := by
  intro hc
  subst hc
  exact absurd h (by decide)

theorem squashAux_chars : ∀ (l : List Char) (b : Bool) (c : Char),
    c ∈ squashAux b l → isLowerAlnum c = true ∨ c = '-' := by
  intro l
  induction l with
  | nil => intro b c h; simp [squashAux] at h
  | cons d rest ih =>
    intro b c h
    rw [squashAux] at h
    by_cases hd : isLowerAlnum d = true
    · rw [if_pos hd] at h
      rcases List.mem_cons.mp h with rfl | hm
      · exact Or.inl hd
      · exact ih false c hm
    · rw [if_neg hd] at h
      cases b with
      | true => exact ih true c (by simpa using h)
      | false =>
        rcases List.mem_cons.mp (by simpa using h) with rfl | hm
        · exact Or.inr rfl
        · exact ih true c hm

theorem squashAux_true_head : ∀ l : List Char, (squashAux true l).head? ≠ some '-' := by
  intro l
  induction l with
  | nil => simp [squashAux]
  | cons d rest ih =>
    rw [squashAux]
    by_cases hd : isLowerAlnum d = true
    · rw [if_pos hd]
      simp only [List.head?_cons]
      intro h
      exact alnum_ne_dash hd (Option.some.inj h)
    · rw [if_neg hd]
      simpa using ih

theorem squashAux_chain : ∀ (l : List Char) (b : Bool),
    List.Chain' (fun a c => ¬(a = '-' ∧ c = '-')) (squashAux b l) := by
  intro l
  induction l with
  | nil => intro b; simp [squashAux]
  | cons d rest ih =>
    intro b
    rw [squashAux]
    by_cases hd : isLowerAlnum d = true
    · rw [if_pos hd]
      rw [List.chain'_cons']
      refine ⟨?_, ih false⟩
      intro y _ hco
      exact alnum_ne_dash hd hco.1
    · rw [if_neg hd]
      cases b with
      | true => simpa using ih true
      | false =>
        have hred : (if (false : Bool) then squashAux true rest
            else '-' :: squashAux true rest) = '-' :: squashAux true rest := by simp
        rw [hred, List.chain'_cons']
        refine ⟨?_, ih true⟩
        intro y hy hco
        exact squashAux_true_head rest (hco.2 ▸ Option.mem_def.mp hy)

theorem collapseAux_id : ∀ l : List Char,
    List.Chain' (fun a c => ¬(a = '-' ∧ c = '-')) l →
    collapseAux false l = l ∧ (l.head? ≠ some '-' → collapseAux true l = l) := by
  intro l
  induction l with
  | nil => intro _; exact ⟨rfl, fun _ => rfl⟩
  | cons d rest ih =>
    intro hch
    obtain ⟨hhead, hrest⟩ := List.chain'_cons'.mp hch
    by_cases hd : d = '-'
    · subst hd
      have hrh : rest.head? ≠ some '-' := by
        intro heq
        exact hhead '-' (Option.mem_def.mpr heq) ⟨rfl, rfl⟩
      have ht := (ih hrest).2 hrh
      constructor
      · simp [collapseAux, ht]
      · intro hh
        simp at hh
    · have h1 := (ih hrest).1
      constructor
      · simp [collapseAux, hd, h1]
      · intro _
        simp [collapseAux, hd, h1]

theorem squashAux_id : ∀ l : List Char,
    (∀ c ∈ l, isLowerAlnum c = true ∨ c = '-') →
    List.Chain' (fun a c => ¬(a = '-' ∧ c = '-')) l →
    squashAux false l = l ∧ (l.head? ≠ some '-' → squashAux true l = l) := by
  intro l
  induction l with
  | nil => intro _ _; exact ⟨rfl, fun _ => rfl⟩
  | cons d rest ih =>
    intro hchars hch
    obtain ⟨hhead, hrest⟩ := List.chain'_cons'.mp hch
    have hcr : ∀ c ∈ rest, isLowerAlnum c = true ∨ c = '-' :=
      fun c hc => hchars c (List.mem_cons_of_mem _ hc)
    by_cases hd : isLowerAlnum d = true
    · have h1 := (ih hcr hrest).1
      constructor
      · simp [squashAux, hd, h1]
      · intro _
        simp [squashAux, hd, h1]
    · have hd2 : d = '-' := (hchars d (List.mem_cons_self _ _)).resolve_left hd
      subst hd2
      have hrh : rest.head? ≠ some '-' := by
        intro heq
        exact hhead '-' (Option.mem_def.mpr heq) ⟨rfl, rfl⟩
      have ht := (ih hcr hrest).2 hrh
      have hda : isLowerAlnum '-' = false := rfl
      constructor
      · simp [squashAux, hda, ht]
      · intro hh
        simp at hh

theorem mem_of_mem_dropWhile {p : Char → Bool} {c : Char} :
    ∀ {l : List Char}, c ∈ l.dropWhile p → c ∈ l := by
  intro l
  induction l with
  | nil => intro h; simp at h
  | cons d rest ih =>
    intro h
    by_cases hd : p d = true
    · rw [List.dropWhile_cons_of_pos hd] at h
      exact List.mem_cons_of_mem _ (ih h)
    · rw [List.dropWhile_cons_of_neg (by simpa using hd)] at h
      exact h

theorem mem_of_mem_stripDash {c : Char} {l : List Char} (h : c ∈ stripDash l) : c ∈ l := by
  unfold stripDash at h
  rw [List.mem_reverse] at h
  have h2 := mem_of_mem_dropWhile h
  rw [List.mem_reverse] at h2
  exact mem_of_mem_dropWhile h2

theorem chain'_dropWhile {R : Char → Char → Prop} {p : Char → Bool} {l : List Char}
    (h : List.Chain' R l) : List.Chain' R (l.dropWhile p) := by
  have hsplit := List.takeWhile_append_dropWhile (p := p) (l := l)
  rw [← hsplit] at h
  exact (List.chain'_append.mp h).2.1

theorem chain'_stripDash {l : List Char}
    (h : List.Chain' (fun a c => ¬(a = '-' ∧ c = '-')) l) :
    List.Chain' (fun a c => ¬(a = '-' ∧ c = '-')) (stripDash l) := by
  unfold stripDash
  rw [List.chain'_reverse]
  apply chain'_dropWhile
  rw [List.chain'_reverse]
  exact chain'_dropWhile h

theorem dropWhile_head_not (p : Char → Bool) :
    ∀ (l : List Char) (c : Char), (l.dropWhile p).head? = some c → p c = false := by
  intro l
  induction l with
  | nil => intro c h; simp at h
  | cons d rest ih =>
    intro c h
    by_cases hd : p d = true
    · rw [List.dropWhile_cons_of_pos hd] at h
      exact ih c h
    · rw [List.dropWhile_cons_of_neg (by simpa using hd)] at h
      simp only [List.head?_cons] at h
      obtain rfl := Option.some.inj h
      simpa using hd

theorem stripDash_ends (l : List Char) :
    (stripDash l).head? ≠ some '-' ∧ (stripDash l).getLast? ≠ some '-' := by
  constructor
  · unfold stripDash
    rw [List.head?_reverse]
    intro hlast
    set Y := (l.dropWhile (fun c => c = '-')).reverse with hY
    have hXne : Y.dropWhile (fun c => c = '-') ≠ [] := by
      intro he
      rw [he] at hlast
      simp at hlast
    have h1 : Y.getLast? = some '-' := by
      conv_lhs => rw [← List.takeWhile_append_dropWhile (p := fun c => c = '-') (l := Y)]
      rw [List.getLast?_append_of_ne_nil _ hXne]
      exact hlast
    rw [hY, List.getLast?_reverse] at h1
    have := dropWhile_head_not (fun c => c = '-') l '-' h1
    simp at this
  · unfold stripDash
    rw [List.getLast?_reverse]
    intro hh
    have := dropWhile_head_not (fun c => c = '-') _ '-' hh
    simp at this

theorem dropWhile_id_of_head {p : Char → Bool} {l : List Char}
    (h : ∀ c, l.head? = some c → p c = false) : l.dropWhile p = l := by
  cases l with
  | nil => rfl
  | cons d rest =>
    have hd := h d rfl
    rw [List.dropWhile_cons_of_neg (by simp [hd])]

theorem stripDash_id {l : List Char} (h1 : l.head? ≠ some '-')
    (h2 : l.getLast? ≠ some '-') : stripDash l = l := by
  unfold stripDash
  have e1 : l.dropWhile (fun c => c = '-') = l := by
    apply dropWhile_id_of_head
    intro c hc
    have hcne : c ≠ '-' := by
      intro he
      subst he
      exact h1 hc
    simpa using hcne
  rw [e1]
  have e2 : l.reverse.dropWhile (fun c => c = '-') = l.reverse := by
    apply dropWhile_id_of_head
    intro c hc
    rw [List.head?_reverse] at hc
    have hcne : c ≠ '-' := by
      intro he
      subst he
      exact h2 hc
    simpa using hcne
  rw [e2, List.reverse_reverse]

theorem pyLower_id {c : Char} (h : isLowerAlnum c = true ∨ c = '-') : pyLower c = c := by
  rcases h with h | rfl
  · have h2 : ('a' ≤ c ∧ c ≤ 'z') ∨ ('0' ≤ c ∧ c ≤ '9') := by
      simpa [isLowerAlnum] using h
    unfold pyLower
    rw [if_neg]
    rintro ⟨hA, hZ⟩
    rcases h2 with ⟨ha, _⟩ | ⟨_, h9⟩
    · exact absurd (le_trans ha hZ) (by decide)
    · exact absurd (le_trans hA h9) (by decide)
  · rfl

theorem map_pyLower_id {l : List Char}
    (h : ∀ c ∈ l, isLowerAlnum c = true ∨ c = '-') : l.map pyLower = l := by
  have h2 := List.map_congr_left (f := pyLower) (g := fun c => c)
    (fun c hc => pyLower_id (h c hc))
  simpa using h2

theorem slug_core_invariant (y : List Char) :
    (∀ c ∈ stripDash (squash y), isLowerAlnum c = true ∨ c = '-') ∧
    List.Chain' (fun a c => ¬(a = '-' ∧ c = '-')) (stripDash (squash y)) ∧
    (stripDash (squash y)).head? ≠ some '-' ∧
    (stripDash (squash y)).getLast? ≠ some '-' := by
  refine ⟨?_, ?_, (stripDash_ends _).1, (stripDash_ends _).2⟩
  · intro c hc
    exact squashAux_chars y false c (mem_of_mem_stripDash hc)
  · exact chain'_stripDash (squashAux_chain y false)

/-- Claim C5 counterexample: the script's `slugify` has no fallback
token — on an all-symbol input the normalized result is empty and the
function returns the empty string, not `software` (which the spec-side
normalization produces). -/
theorem C5_slugify_fallback_cex :
    Scripts.slugify "!!!".data = [] ∧
    claimSlugify "!!!".data = "software".data ∧
    ([] : List Char) ≠ "software".data :=
  ⟨by decide, by decide, by decide⟩

/-- Claim C5 (amended): the uploader's `_slugify` agrees everywhere
with the spec's normalization (lowercase, squash runs outside
`[a-z0-9]` to one dash, strip dashes, fall back to `software` when
empty); the script's `slugify` agrees except that it returns the empty
string instead of the fallback token; both are idempotent, and both
map `Firefox.app` to `firefox-app` and `  A__B  ` to `a-b`. -/
theorem C5_slugify_normalization (x : List Char) :
    Uploader._slugify x = claimSlugify x ∧
    Scripts.slugify x =
      (if stripDash (squash (x.map pyLower)) = [] then [] else claimSlugify x) ∧
    Uploader._slugify (Uploader._slugify x) = Uploader._slugify x ∧
    Scripts.slugify (Scripts.slugify x) = Scripts.slugify x ∧
    Uploader._slugify "Firefox.app".data = "firefox-app".data ∧
    Uploader._slugify "  A__B  ".data = "a-b".data ∧
    Scripts.slugify "Firefox.app".data = "firefox-app".data ∧
    Scripts.slugify "  A__B  ".data = "a-b".data := by
  obtain ⟨hchars, hchain, hhead, hlast⟩ := slug_core_invariant (x.map pyLower)
  have hcoll : collapseDashes (squash (x.map pyLower)) = squash (x.map pyLower) :=
    (collapseAux_id _ (squashAux_chain _ false)).1
  have hmap : (stripDash (squash (x.map pyLower))).map pyLower =
      stripDash (squash (x.map pyLower)) := map_pyLower_id hchars
  have hsq : squash (stripDash (squash (x.map pyLower))) =
      stripDash (squash (x.map pyLower)) := (squashAux_id _ hchars hchain).1
  have hco2 : collapseDashes (stripDash (squash (x.map pyLower))) =
      stripDash (squash (x.map pyLower)) := (collapseAux_id _ hchain).1
  have hst : stripDash (stripDash (squash (x.map pyLower))) =
      stripDash (squash (x.map pyLower)) := stripDash_id hhead hlast
  have hU : Uploader._slugify x = claimSlugify x := by
    simp only [Uploader._slugify, claimSlugify]
    rw [hcoll]
  have hfix : Uploader._slugify (stripDash (squash (x.map pyLower))) =
      (if stripDash (squash (x.map pyLower)) = [] then "software".data
       else stripDash (squash (x.map pyLower))) := by
    simp only [Uploader._slugify]
    rw [hmap, hsq, hco2, hst]
  have hSfix : Scripts.slugify (stripDash (squash (x.map pyLower))) =
      stripDash (squash (x.map pyLower)) := by
    simp only [Scripts.slugify]
    rw [hmap, hsq, hst]
  refine ⟨hU, ?_, ?_, ?_, by decide, by decide, by decide, by decide⟩
  · by_cases hr : stripDash (squash (x.map pyLower)) = []
    · rw [if_pos hr]
      exact hr
    · rw [if_neg hr]
      simp only [claimSlugify]
      rw [if_neg hr]
      rfl
  · rw [hU]
    simp only [claimSlugify]
    by_cases hr : stripDash (squash (x.map pyLower)) = []
    · rw [if_pos hr]
      decide
    · rw [if_neg hr]
      rw [hfix, if_neg hr]
  · show Scripts.slugify (stripDash (squash (x.map pyLower))) =
      stripDash (squash (x.map pyLower))
    exact hSfix
